import Mathlib

/-!
# z2: the note store and the `create` command

A shallow embedding of `main.go`.  The program keeps three tables in one
SQLite file (`tags`, `notes` and the join table `note_tags` of the
`many2many:note_tags` relation) and talks to them through three library calls:
`db.AutoMigrate`, `db.FirstOrCreate` and `db.Create`.  The tables are modelled
as lists of rows in insertion order, the library calls as functions on them,
and the functions of `main.go` (`initDB`, `dbClose`, `createNote`) are
translated statement by statement on top of these.

Process-level effects are explicit: what is printed, whether `os.Exit` was
called, and the content of the store afterwards.
-/

namespace Z2

/-! ## Data model (`main.go`, lines 13-24) -/

/-- Go struct `Tag`: `ID` is the primary key, `Name` is `unique;not null`. -/
structure Tag where
  ID : Nat
  Name : String
deriving DecidableEq, Repr

/-- Go struct `Note`: the three scalar fields are pointers (nullable), `Tags`
is the many-to-many relation through `note_tags`. -/
structure Note where
  ID : Nat
  Title : Option String
  Summary : Option String
  Body : Option String
  Tags : List Tag
deriving DecidableEq, Repr

/-- A row of table `notes`: the columns of `Note` (the relation `Tags` lives in
`note_tags`, not in this table). -/
structure NoteRow where
  ID : Nat
  Title : Option String
  Summary : Option String
  Body : Option String
deriving DecidableEq, Repr

/-- The content of a migrated store: the rows of `tags`, of `notes`, and of the
join table `note_tags` as pairs `(note_id, tag_id)`. -/
structure DB where
  tags : List Tag
  notes : List NoteRow
  note_tags : List (Nat × Nat)
deriving DecidableEq, Repr

/-- The store with three empty tables. -/
def DB.empty : DB := ⟨[], [], []⟩

/-! ## The store library, as far as `main.go` uses it -/

/-- The identifier an integer primary key column assigns to a row inserted
without one: one more than the largest identifier in the table. -/
def nextID (ids : List Nat) : Nat := ids.foldr max 0 + 1

/-- The clause `ORDER BY id LIMIT 1`: the row with the least identifier (the
earliest inserted one among equals). -/
def firstByID : List Tag → Option Tag
  | [] => none
  | t :: ts =>
    match firstByID ts with
    | none => some t
    | some u => if u.ID < t.ID then some u else some t

/-- The `WHERE` clause the library builds from a condition struct: one equality
per field of the struct that is not the zero value of its type.  A field that is
zero (`ID` 0, `Name` "") contributes no condition. -/
def whereTag (conds : Tag) (t : Tag) : Bool :=
  (conds.ID == 0 || t.ID == conds.ID) && (conds.Name == "" || t.Name == conds.Name)

/-- The statement `INSERT INTO tags`: a zero `ID` is assigned by the store; the
insert is refused (`none`) when the primary key or the unique `name` is taken.
Returns the table and the row as stored. -/
def insertTag (tags : List Tag) (t : Tag) : Option (List Tag × Tag) :=
  let row : Tag := if t.ID = 0 then ⟨nextID (tags.map (·.ID)), t.Name⟩ else t
  if tags.any (fun u => u.ID == row.ID || u.Name == row.Name) then none
  else some (tags ++ [row], row)

/-- Whether the store refuses the next write.  `w` is the state of the store as
far as failures go: the number of writes it still accepts before it starts
refusing them (`none`: it never refuses).  A store that has refused a write
refuses the later ones of the same call. -/
def refuses (w : Option Nat) : Bool := w == some 0

/-- The write counter after one accepted write. -/
def spend (w : Option Nat) : Option Nat := w.map (· - 1)

/-- The call `db.FirstOrCreate(&dest, conds)` on table `tags`: select the first
row matching `conds`; when there is one, load it into `dest`; when there is
none, insert `dest`.  (`main.go` passes a `dest` without identifier, which adds
no condition of its own.)  Returns the store, the write counter, `dest` after
the call and whether the call reported an error. -/
def FirstOrCreate (db : DB) (w : Option Nat) (dest conds : Tag) :
    DB × Option Nat × Tag × Bool :=
  match firstByID (db.tags.filter (whereTag conds)) with
  | some t => (db, w, t, false)
  | none =>
    if refuses w then (db, w, dest, true)
    else
      match insertTag db.tags dest with
      | none => (db, w, dest, true)
      | some (tags1, row) => ({ db with tags := tags1 }, spend w, row, false)

/-- Saving the associated tags of a note being created:
`INSERT INTO tags ... ON CONFLICT DO NOTHING`, one element after the other.
Returns the table and the elements with the identifiers the store gave them. -/
def saveTags (tags : List Tag) : List Tag → List Tag × List Tag
  | [] => (tags, [])
  | t :: ts =>
    match insertTag tags t with
    | some (tags1, row) =>
      let r := saveTags tags1 ts
      (r.1, row :: r.2)
    | none =>
      let r := saveTags tags ts
      (r.1, t :: r.2)

/-- One row of `INSERT INTO note_tags ... ON CONFLICT DO NOTHING`: the pair is
the primary key of the join table, a pair already present is left alone. -/
def insertJoin (rows : List (Nat × Nat)) (p : Nat × Nat) : List (Nat × Nat) :=
  if p ∈ rows then rows else rows ++ [p]

/-- The call `db.Create(&note)`: inside one transaction, insert the row of
`notes`, save the associated tags, and insert one join row per element of
`note.Tags`.  When the store refuses the write or the primary key is taken the
transaction is rolled back and the store is as before.  Returns the store, the
write counter, `note` after the call and whether the call reported an error. -/
def Create (db : DB) (w : Option Nat) (note : Note) : DB × Option Nat × Note × Bool :=
  let id := if note.ID = 0 then nextID (db.notes.map (·.ID)) else note.ID
  if refuses w || db.notes.any (fun r => r.ID == id) then (db, w, note, true)
  else
    let saved := saveTags db.tags note.Tags
    let joins := (saved.2.map (fun t => (id, t.ID))).foldl insertJoin db.note_tags
    (⟨saved.1, db.notes ++ [⟨id, note.Title, note.Summary, note.Body⟩], joins⟩,
      spend w, { note with ID := id, Tags := saved.2 }, false)

/-! ## `main.go` -/

/-- What a function of `main.go` did to the process: `exit` is the status passed
to `os.Exit` (`none` when the function returned to its caller), `out` the lines
`main.go` printed, `db` the store it leaves. -/
structure Outcome where
  exit : Option Nat
  out : List String
  db : DB
deriving DecidableEq, Repr

/-- The loop of `createNote` (lines 101-106): for each tag name, in order,
`tag := Tag{Name: tagName}; db.FirstOrCreate(&tag, Tag{Name: tagName})` with
the result of the call discarded, then `noteTags = append(noteTags, tag)`. -/
def tagLoop (db : DB) (w : Option Nat) : List String → List Tag → DB × Option Nat × List Tag
  | [], noteTags => (db, w, noteTags)
  | tagName :: rest, noteTags =>
    let r := FirstOrCreate db w ⟨0, tagName⟩ ⟨0, tagName⟩
    tagLoop r.1 r.2.1 rest (noteTags ++ [r.2.2.1])

/-- Function `createNote` (lines 83-117).  `ReadFile` is the file system as
`ioutil.ReadFile` sees it, `w` the write counter of the store; the four flags
are the remaining arguments.  The Go function has no result: besides the store,
its caller sees only the printed lines and the exit status. -/
def createNote (db : DB) (w : Option Nat) (ReadFile : String → Except String String)
    (title summary : String) (tags : List String) (bodyFilePath : String) : Outcome :=
  if bodyFilePath = "" then
    ⟨some 1, ["Error: --body-file is required"], db⟩
  else
    match ReadFile bodyFilePath with
    | .error err => ⟨some 1, ["Error reading from body file: " ++ err], db⟩
    | .ok bodyStr =>
      let r := tagLoop db w tags []
      let note : Note := ⟨0, some title, some summary, some bodyStr, r.2.2⟩
      let c := Create r.1 r.2.1 note
      ⟨none, ["Note created successfully!"], c.1⟩

/-- A database file: each table is absent (`none`) or present with its rows. -/
structure SqliteFile where
  tags : Option (List Tag)
  notes : Option (List NoteRow)
  note_tags : Option (List (Nat × Nat))
deriving DecidableEq, Repr

/-- The file of a migrated store. -/
def DB.file (db : DB) : SqliteFile := ⟨some db.tags, some db.notes, some db.note_tags⟩

/-- The tables `db.AutoMigrate(&Tag{}, &Note{})` migrates: the two models and
the join table of the relation `Tags`. -/
inductive Table where
  | tags
  | notes
  | note_tags
deriving DecidableEq, Repr

/-- Whether a table is present in the file. -/
def present (t : Table) (f : SqliteFile) : Bool :=
  match t with
  | .tags => f.tags.isSome
  | .notes => f.notes.isSome
  | .note_tags => f.note_tags.isSome

/-- A successful migration of one table: it is created empty when it is absent
and kept with its rows when it is present. -/
def createTable (t : Table) (f : SqliteFile) : SqliteFile :=
  match t with
  | .tags => { f with tags := some (f.tags.getD []) }
  | .notes => { f with notes := some (f.notes.getD []) }
  | .note_tags => { f with note_tags := some (f.note_tags.getD []) }

/-- Migrating the listed tables in order.  `migErr t f` is the error the store
raises when table `t` is migrated on the file `f` (`none`: it raises none); what
makes a store raise one (a file that cannot be written, an object in it that
does not fit the schema) is outside `main.go`, so it is a parameter.  The first
error stops the migration: the file stays as the earlier tables left it, the
later tables are not touched, and the error is returned. -/
def migrateFrom (migErr : Table → SqliteFile → Option String) :
    List Table → SqliteFile → SqliteFile × Option String
  | [], f => (f, none)
  | t :: ts, f =>
    match migErr t f with
    | some err => (f, some err)
    | none => migrateFrom migErr ts (createTable t f)

/-- The call `db.AutoMigrate(&Tag{}, &Note{})`: `tags`, then `notes`, then
`note_tags`.  Returns the file and the error of the call, if any. -/
def AutoMigrate (migErr : Table → SqliteFile → Option String) (f : SqliteFile) :
    SqliteFile × Option String :=
  migrateFrom migErr [.tags, .notes, .note_tags] f

/-- What `initDB` did: exit status, the lines `main.go` printed, the records
the library's logger wrote, the open handle (the file it gives access to) and
the disk afterwards. -/
structure InitOutcome where
  exit : Option Nat
  out : List String
  log : List String
  db : Option SqliteFile
  disk : String → Except String SqliteFile

/-- Function `initDB` (lines 46-54).  `disk dbFile` is what
`gorm.Open(sqlite.Open(dbFile))` meets at the path: an error, or the database
file there (a file with no table when the path did not exist yet).  On an error
the function prints and exits with status 1.  Otherwise it calls `AutoMigrate`
and discards its result: when that call fails the only trace is the record of
the library's logger, and the function returns as if nothing had happened. -/
def initDB (migErr : Table → SqliteFile → Option String)
    (disk : String → Except String SqliteFile) (dbFile : String) : InitOutcome :=
  match disk dbFile with
  | .error err => ⟨some 1, ["Failed to connect to the database: " ++ err], [], none, disk⟩
  | .ok f =>
    let m := AutoMigrate migErr f
    ⟨none, [], m.2.toList, some m.1, fun p => if p = dbFile then .ok m.1 else disk p⟩

/-- A store that raises no error on migration. -/
def migOk : Table → SqliteFile → Option String := fun _ _ => none

/-- A store that cannot be written: migrating a table that is absent raises an
error, migrating one that is present changes nothing and raises none. -/
def migReadOnly : Table → SqliteFile → Option String := fun t f =>
  if present t f then none else some "attempt to write a readonly database"

/-- What `dbClose` did: exit status and printed lines. -/
structure CloseOutcome where
  exit : Option Nat
  out : List String
deriving DecidableEq, Repr

/-- Function `dbClose` (lines 56-63).  `dbErr` is the error of `db.DB()`,
`closeErr` the error `sqlDB.Close()` returns (`none`: no error).  The first is
checked, the second is discarded. -/
def dbClose (dbErr closeErr : Option String) : CloseOutcome :=
  match dbErr with
  | some err => ⟨some 1, ["Failed to close the database: " ++ err]⟩
  | none =>
    let _ := closeErr
    ⟨none, []⟩

/-! ## Reading the store back -/

/-- The tags associated with a note: the rows of `tags` joined to the note
through `note_tags`. -/
def tagsOf (db : DB) (noteID : Nat) : List Tag :=
  db.tags.filter (fun t => (noteID, t.ID) ∈ db.note_tags)

/-- A direct read of a note with its tags preloaded. -/
def readNote (db : DB) (noteID : Nat) : Option Note :=
  (db.notes.find? (fun r => r.ID == noteID)).map
    (fun r => ⟨r.ID, r.Title, r.Summary, r.Body, tagsOf db noteID⟩)

/-- One invocation of `z2 create`: the flags and the file system it meets. -/
structure Call where
  title : String
  summary : String
  tags : List String
  bodyFilePath : String
  ReadFile : String → Except String String

/-- A sequence of `create` invocations on a store that accepts every write. -/
def runCalls (db : DB) : List Call → DB
  | [] => db
  | c :: cs =>
    runCalls (createNote db none c.ReadFile c.title c.summary c.tags c.bodyFilePath).db cs

/-- A file system in which every path reads as `body`. -/
def fsConst (body : String) : String → Except String String := fun _ => .ok body

/-- A file system in which no path can be read. -/
def fsNone : String → Except String String := fun _ => .error "no such file or directory"

/-- The constraints of the schema: primary keys of the three tables, the unique
`name` of a tag, and every join row referring to a stored note and a stored tag. -/
structure DB.WF (db : DB) : Prop where
  tagIDs : (db.tags.map (·.ID)).Nodup
  tagNames : (db.tags.map (·.Name)).Nodup
  noteIDs : (db.notes.map (·.ID)).Nodup
  joins : db.note_tags.Nodup
  joinNote : ∀ p ∈ db.note_tags, p.1 ∈ db.notes.map (·.ID)
  joinTag : ∀ p ∈ db.note_tags, p.2 ∈ db.tags.map (·.ID)

/-- The state of the loop (`db`, `w`, `noteTags`) relative to the store `db0` it
started from: only `tags` has changed, by appending rows with identifiers larger
than those of `db0`; the keys of `tags` are still unique when they were; and,
unless the store has started to refuse writes, every collected tag is stored. -/
structure LoopInv (db0 db : DB) (w : Option Nat) (noteTags : List Tag) : Prop where
  notes : db.notes = db0.notes
  joins : db.note_tags = db0.note_tags
  tags : ∃ new, db.tags = db0.tags ++ new ∧ ∀ t ∈ new, ∀ u ∈ db0.tags, u.ID < t.ID
  ids : (db0.tags.map (·.ID)).Nodup → (db.tags.map (·.ID)).Nodup
  names : (db0.tags.map (·.Name)).Nodup → (db.tags.map (·.Name)).Nodup
  saved : refuses w = true ∨ ∀ t ∈ noteTags, t ∈ db.tags

/-- How a store `db1` extends a store `db`: rows are appended to the three
tables and nothing else changes; new tags have larger identifiers than the old
ones; at most one note is new, with the next identifier; the new join rows
belong to that note and to stored tags. -/
structure Extends (db db1 : DB) : Prop where
  tags : ∃ new, db1.tags = db.tags ++ new ∧ ∀ t ∈ new, ∀ u ∈ db.tags, u.ID < t.ID
  ids : (db.tags.map (·.ID)).Nodup → (db1.tags.map (·.ID)).Nodup
  names : (db.tags.map (·.Name)).Nodup → (db1.tags.map (·.Name)).Nodup
  notes : db1.notes = db.notes ∨
    ∃ row, db1.notes = db.notes ++ [row] ∧ row.ID = nextID (db.notes.map (·.ID))
  joins : ∃ extra, db1.note_tags = db.note_tags ++ extra ∧ extra.Nodup ∧
    ∀ p ∈ extra, p ∉ db.note_tags ∧ p.1 = nextID (db.notes.map (·.ID)) ∧
      p.1 ∈ db1.notes.map (·.ID) ∧ p.2 ∈ db1.tags.map (·.ID)

/-! ## Lemmas on the store library -/

theorem lt_nextID (ids : List Nat) : ∀ i ∈ ids, i < nextID ids := by
  induction ids with
  | nil => intro i hi; cases hi
  | cons a l ih =>
    intro i hi
    have hstep : nextID (a :: l) = max a (l.foldr max 0) + 1 := rfl
    rw [hstep]
    rcases List.mem_cons.mp hi with h | h
    · subst h; omega
    · have := ih i h
      unfold nextID at this
      omega

theorem nextID_not_mem (ids : List Nat) : nextID ids ∉ ids := fun h =>
  Nat.lt_irrefl _ (lt_nextID ids _ h)

theorem firstByID_mem : ∀ (l : List Tag) (t : Tag), firstByID l = some t → t ∈ l := by
  intro l
  induction l with
  | nil => intro t h; cases h
  | cons a l ih =>
    intro t h
    unfold firstByID at h
    cases hf : firstByID l with
    | none =>
      rw [hf] at h
      simp only [Option.some.injEq] at h
      subst h
      exact List.mem_cons_self _ _
    | some u =>
      rw [hf] at h
      simp only at h
      split at h
      · simp only [Option.some.injEq] at h
        subst h
        exact List.mem_cons_of_mem _ (ih u hf)
      · simp only [Option.some.injEq] at h
        subst h
        exact List.mem_cons_self _ _

theorem firstByID_eq_none : ∀ (l : List Tag), firstByID l = none → l = [] := by
  intro l h
  cases l with
  | nil => rfl
  | cons a l =>
    unfold firstByID at h
    cases hf : firstByID l with
    | none => rw [hf] at h; cases h
    | some u =>
      rw [hf] at h
      simp only at h
      split at h <;> cases h

/-- A tag already stored is not inserted again. -/
theorem insertTag_of_mem {tags : List Tag} {t : Tag} (h : t ∈ tags) :
    insertTag tags t = none := by
  unfold insertTag
  simp only
  rw [if_pos]
  simp only [List.any_eq_true, Bool.or_eq_true, beq_iff_eq]
  refine ⟨t, h, Or.inr ?_⟩
  split <;> rfl

/-- The three ways `db.FirstOrCreate(&tag, Tag{Name: n})` ends for
`tag = Tag{Name: n}`: a stored tag is found (the one named `n` when `n` is not
empty); the store refuses the insert and `tag` stays as it was; or a new row
named `n` with a fresh identifier is appended. -/
theorem FirstOrCreate_cases (db : DB) (w : Option Nat) (n : String) :
    (∃ t, t ∈ db.tags ∧ (n ≠ "" → t.Name = n) ∧
        FirstOrCreate db w ⟨0, n⟩ ⟨0, n⟩ = (db, w, t, false)) ∨
    (refuses w = true ∧ FirstOrCreate db w ⟨0, n⟩ ⟨0, n⟩ = (db, w, ⟨0, n⟩, true)) ∨
    (refuses w = false ∧ (∀ u ∈ db.tags, u.Name ≠ n) ∧
        FirstOrCreate db w ⟨0, n⟩ ⟨0, n⟩ =
          ({ db with tags := db.tags ++ [⟨nextID (db.tags.map (·.ID)), n⟩] }, spend w,
            ⟨nextID (db.tags.map (·.ID)), n⟩, false)) := by
  unfold FirstOrCreate
  cases hf : firstByID (db.tags.filter (whereTag ⟨0, n⟩)) with
  | some t =>
    left
    have hm := firstByID_mem _ _ hf
    rw [List.mem_filter] at hm
    refine ⟨t, hm.1, ?_, rfl⟩
    intro hn
    have h2 := hm.2
    simp only [whereTag, beq_self_eq_true, Bool.true_or, Bool.true_and, Bool.or_eq_true,
      beq_iff_eq] at h2
    rcases h2 with h2 | h2
    · exact absurd h2 hn
    · exact h2
  | none =>
    right
    have hnil := firstByID_eq_none _ hf
    have hno : ∀ u ∈ db.tags, u.Name ≠ n := by
      intro u hu hun
      have : u ∈ db.tags.filter (whereTag ⟨0, n⟩) := by
        rw [List.mem_filter]
        refine ⟨hu, ?_⟩
        simp only [whereTag, beq_self_eq_true, Bool.true_or, Bool.true_and, Bool.or_eq_true,
          beq_iff_eq]
        exact Or.inr hun
      rw [hnil] at this
      cases this
    cases hr : refuses w with
    | true => left; exact ⟨rfl, by simp⟩
    | false =>
      right
      refine ⟨rfl, hno, ?_⟩
      have hins : insertTag db.tags ⟨0, n⟩ =
          some (db.tags ++ [⟨nextID (db.tags.map (·.ID)), n⟩],
            ⟨nextID (db.tags.map (·.ID)), n⟩) := by
        unfold insertTag
        simp only [if_true]
        rw [if_neg]
        simp only [List.any_eq_true, Bool.or_eq_true, beq_iff_eq, not_exists, not_and, not_or]
        intro u hu
        refine ⟨?_, hno u hu⟩
        intro hid
        exact nextID_not_mem (db.tags.map (·.ID)) (hid ▸ List.mem_map_of_mem (·.ID) hu)
      simp [hins]

/-- Saving tags that are all stored already changes nothing. -/
theorem saveTags_of_mem (tags : List Tag) :
    ∀ ts : List Tag, (∀ t ∈ ts, t ∈ tags) → saveTags tags ts = (tags, ts) := by
  intro ts
  induction ts with
  | nil => intro _; rfl
  | cons t ts ih =>
    intro h
    unfold saveTags
    rw [insertTag_of_mem (h t (List.mem_cons_self _ _))]
    simp only
    rw [ih (fun u hu => h u (List.mem_cons_of_mem _ hu))]

/-- Inserting join rows with `ON CONFLICT DO NOTHING` appends, without
repetition, exactly the rows that were not stored yet. -/
theorem foldl_insertJoin (l : List (Nat × Nat)) :
    ∀ base : List (Nat × Nat), ∃ extra, l.foldl insertJoin base = base ++ extra ∧
      extra.Nodup ∧ ∀ p, p ∈ extra ↔ p ∈ l ∧ p ∉ base := by
  induction l with
  | nil =>
    intro base
    exact ⟨[], by simp, List.nodup_nil, by simp⟩
  | cons a l ih =>
    intro base
    rw [List.foldl_cons]
    by_cases ha : a ∈ base
    · obtain ⟨extra, h1, h2, h3⟩ := ih base
      refine ⟨extra, ?_, h2, ?_⟩
      · rw [insertJoin, if_pos ha]; exact h1
      · intro p
        rw [h3 p, List.mem_cons]
        constructor
        · rintro ⟨hp, hb⟩; exact ⟨Or.inr hp, hb⟩
        · rintro ⟨hp | hp, hb⟩
          · subst hp; exact absurd ha hb
          · exact ⟨hp, hb⟩
    · obtain ⟨extra, h1, h2, h3⟩ := ih (base ++ [a])
      refine ⟨a :: extra, ?_, ?_, ?_⟩
      · rw [insertJoin, if_neg ha, h1]; simp
      · rw [List.nodup_cons]
        refine ⟨?_, h2⟩
        intro hmem
        have := ((h3 a).mp hmem).2
        exact this (by simp)
      · intro p
        rw [List.mem_cons, h3 p, List.mem_cons, List.mem_append, List.mem_singleton]
        constructor
        · rintro (hp | ⟨hp, hb⟩)
          · subst hp; exact ⟨Or.inl rfl, ha⟩
          · exact ⟨Or.inr hp, fun h => hb (Or.inl h)⟩
        · rintro ⟨hp | hp, hb⟩
          · exact Or.inl hp
          · by_cases hpa : p = a
            · exact Or.inl hpa
            · refine Or.inr ⟨hp, ?_⟩
              rintro (h | h)
              · exact hb h
              · exact hpa h

/-- What `db.Create(&note)` does for a note without identifier whose tags are
all stored, as `createNote` calls it: either the store refuses the write and
nothing changes, or one row is appended to `notes` with a fresh identifier,
`tags` is unchanged, and the missing join rows of the note are appended. -/
theorem Create_cases (db : DB) (w : Option Nat) (note : Note) (hID : note.ID = 0)
    (hmem : ∀ t ∈ note.Tags, t ∈ db.tags) :
    (refuses w = true ∧ Create db w note = (db, w, note, true)) ∨
    (refuses w = false ∧ ∃ extra,
      Create db w note =
        (⟨db.tags,
          db.notes ++ [⟨nextID (db.notes.map (·.ID)), note.Title, note.Summary, note.Body⟩],
          db.note_tags ++ extra⟩, spend w,
          { note with ID := nextID (db.notes.map (·.ID)) }, false) ∧
      extra.Nodup ∧
      ∀ p, p ∈ extra ↔
        p ∈ note.Tags.map (fun t => (nextID (db.notes.map (·.ID)), t.ID)) ∧
          p ∉ db.note_tags) := by
  have hfresh : (db.notes.any (fun r => r.ID == nextID (db.notes.map (·.ID)))) = false := by
    rw [Bool.eq_false_iff]
    intro h
    simp only [List.any_eq_true, beq_iff_eq] at h
    obtain ⟨r, hr, hid⟩ := h
    exact nextID_not_mem (db.notes.map (·.ID)) (hid ▸ List.mem_map_of_mem (·.ID) hr)
  cases hr : refuses w with
  | true =>
    left
    refine ⟨rfl, ?_⟩
    unfold Create
    simp [hr]
  | false =>
    right
    refine ⟨rfl, ?_⟩
    obtain ⟨extra, h1, h2, h3⟩ := foldl_insertJoin
      (note.Tags.map (fun t => (nextID (db.notes.map (·.ID)), t.ID))) db.note_tags
    refine ⟨extra, ?_, h2, h3⟩
    unfold Create
    simp only [hID, if_true, hr, hfresh, Bool.or_self, Bool.false_eq_true, if_false]
    rw [saveTags_of_mem db.tags note.Tags hmem]
    simp only [h1]

/-! ## The loop of `createNote` -/

theorem LoopInv.start (db : DB) (w : Option Nat) : LoopInv db db w [] where
  notes := rfl
  joins := rfl
  tags := ⟨[], by simp, by intro t ht; cases ht⟩
  ids := id
  names := id
  saved := Or.inr (by intro t ht; cases ht)

/-- One iteration of the loop keeps the invariant. -/
theorem LoopInv.step {db0 db : DB} {w : Option Nat} {noteTags : List Tag}
    (h : LoopInv db0 db w noteTags) (n : String) :
    LoopInv db0 (FirstOrCreate db w ⟨0, n⟩ ⟨0, n⟩).1 (FirstOrCreate db w ⟨0, n⟩ ⟨0, n⟩).2.1
      (noteTags ++ [(FirstOrCreate db w ⟨0, n⟩ ⟨0, n⟩).2.2.1]) := by
  rcases FirstOrCreate_cases db w n with ⟨t, ht, _, he⟩ | ⟨hr, he⟩ | ⟨hr, hno, he⟩
  · rw [he]
    refine ⟨h.notes, h.joins, h.tags, h.ids, h.names, ?_⟩
    rcases h.saved with hs | hs
    · exact Or.inl hs
    · right
      intro u hu
      rcases List.mem_append.mp hu with hu | hu
      · exact hs u hu
      · rw [List.mem_singleton] at hu; subst hu; exact ht
  · rw [he]
    exact ⟨h.notes, h.joins, h.tags, h.ids, h.names, Or.inl hr⟩
  · rw [he]
    obtain ⟨new, hnew, hlt⟩ := h.tags
    refine ⟨h.notes, h.joins, ?_, ?_, ?_, ?_⟩
    · refine ⟨new ++ [⟨nextID (db.tags.map (·.ID)), n⟩], ?_, ?_⟩
      · simp only [hnew, List.append_assoc]
      · intro t ht u hu
        rcases List.mem_append.mp ht with ht | ht
        · exact hlt t ht u hu
        · rw [List.mem_singleton] at ht
          subst ht
          apply lt_nextID
          rw [hnew]
          exact List.mem_map_of_mem (·.ID) (List.mem_append_left _ hu)
    · intro h0
      have := h.ids h0
      simp only [List.map_append, List.map_cons, List.map_nil]
      rw [List.nodup_append]
      refine ⟨this, List.nodup_singleton _, ?_⟩
      intro a ha hb
      rw [List.mem_singleton] at hb
      subst hb
      exact nextID_not_mem _ ha
    · intro h0
      have := h.names h0
      simp only [List.map_append, List.map_cons, List.map_nil]
      rw [List.nodup_append]
      refine ⟨this, List.nodup_singleton _, ?_⟩
      intro a ha hb
      rw [List.mem_singleton] at hb
      subst hb
      obtain ⟨u, hu, hun⟩ := List.mem_map.mp ha
      exact hno u hu hun
    · rcases h.saved with hs | hs
      · rw [hr] at hs; cases hs
      · right
        intro u hu
        simp only [List.mem_append, List.mem_singleton] at hu ⊢
        rcases hu with hu | hu
        · exact Or.inl (hs u hu)
        · exact Or.inr hu

/-- The loop keeps the invariant. -/
theorem tagLoop_inv (db0 : DB) : ∀ (names : List String) (db : DB) (w : Option Nat)
    (noteTags : List Tag), LoopInv db0 db w noteTags →
    LoopInv db0 (tagLoop db w names noteTags).1 (tagLoop db w names noteTags).2.1
      (tagLoop db w names noteTags).2.2 := by
  intro names
  induction names with
  | nil => intro db w noteTags h; exact h
  | cons n rest ih =>
    intro db w noteTags h
    unfold tagLoop
    exact ih _ _ _ (h.step n)

/-- On a store that accepts every write, `FirstOrCreate` hands back a stored
tag, the one named `n` when `n` is not empty, and removes nothing. -/
theorem FirstOrCreate_none (db : DB) (n : String) :
    ∃ db1 t1, FirstOrCreate db none ⟨0, n⟩ ⟨0, n⟩ = (db1, none, t1, false) ∧
      t1 ∈ db1.tags ∧ (n ≠ "" → t1.Name = n) ∧ ∀ u ∈ db.tags, u ∈ db1.tags := by
  rcases FirstOrCreate_cases db none n with ⟨t, ht, hn, he⟩ | ⟨hr, _⟩ | ⟨_, _, he⟩
  · exact ⟨db, t, he, ht, hn, fun u hu => hu⟩
  · cases hr
  · refine ⟨_, _, he, ?_, fun _ => rfl, ?_⟩
    · simp
    · intro u hu
      exact List.mem_append_left _ hu

/-- The loop on a store that accepts every write: every collected tag is
stored, every non-empty name has its tag collected, and when no name is empty
the collected tags carry only names of the list. -/
theorem tagLoop_none : ∀ (names : List String) (db : DB) (acc : List Tag),
    (tagLoop db none names acc).2.1 = none ∧
    (∀ n ∈ names, n ≠ "" →
      ∃ t ∈ (tagLoop db none names acc).2.2,
        t ∈ (tagLoop db none names acc).1.tags ∧ t.Name = n) ∧
    (∀ t ∈ (tagLoop db none names acc).2.2, t ∈ acc ∨
      (t ∈ (tagLoop db none names acc).1.tags ∧ ((∀ n ∈ names, n ≠ "") → t.Name ∈ names))) ∧
    (∀ t ∈ acc, t ∈ (tagLoop db none names acc).2.2) ∧
    (∀ t ∈ db.tags, t ∈ (tagLoop db none names acc).1.tags) := by
  intro names
  induction names with
  | nil =>
    intro db acc
    refine ⟨rfl, ?_, ?_, ?_, ?_⟩
    · intro n hn; cases hn
    · intro t ht; exact Or.inl ht
    · intro t ht; exact ht
    · intro t ht; exact ht
  | cons n rest ih =>
    intro db acc
    obtain ⟨db1, t1, he, ht1, hname, hmono⟩ := FirstOrCreate_none db n
    have hstep : tagLoop db none (n :: rest) acc = tagLoop db1 none rest (acc ++ [t1]) := by
      conv_lhs => unfold tagLoop
      rw [he]
    rw [hstep]
    obtain ⟨i1, i2, i3, i4, i5⟩ := ih db1 (acc ++ [t1])
    refine ⟨i1, ?_, ?_, ?_, ?_⟩
    · intro m hm hne
      rcases List.mem_cons.mp hm with hm | hm
      · subst hm
        exact ⟨t1, i4 t1 (by simp), i5 t1 ht1, hname hne⟩
      · exact i2 m hm hne
    · intro t ht
      rcases i3 t ht with h | ⟨h1, h2⟩
      · rcases List.mem_append.mp h with h | h
        · exact Or.inl h
        · rw [List.mem_singleton] at h
          subst h
          refine Or.inr ⟨i5 _ ht1, ?_⟩
          intro hall
          rw [hname (hall n (List.mem_cons_self _ _))]
          exact List.mem_cons_self _ _
      · refine Or.inr ⟨h1, ?_⟩
        intro hall
        exact List.mem_cons_of_mem _ (h2 (fun m hm => hall m (List.mem_cons_of_mem _ hm)))
    · intro t ht
      exact i4 t (List.mem_append_left _ ht)
    · intro t ht
      exact i5 t (hmono t ht)

/-! ## `createNote` as a whole -/

/-- With a body file that can be read, `createNote` runs the loop and the
insertion, prints the confirmation and returns. -/
theorem createNote_ok (db : DB) (w : Option Nat) (ReadFile : String → Except String String)
    (title summary : String) (tags : List String) (bodyFilePath body : String)
    (hpath : bodyFilePath ≠ "") (hread : ReadFile bodyFilePath = .ok body) :
    createNote db w ReadFile title summary tags bodyFilePath =
      ⟨none, ["Note created successfully!"],
        (Create (tagLoop db w tags []).1 (tagLoop db w tags []).2.1
          ⟨0, some title, some summary, some body, (tagLoop db w tags []).2.2⟩).1⟩ := by
  unfold createNote
  rw [if_neg hpath, hread]

/-- A refused `db.Create` leaves the store as it was. -/
theorem Create_refused (db : DB) (w : Option Nat) (note : Note) (h : refuses w = true) :
    Create db w note = (db, w, note, true) := by
  unfold Create
  simp [h]

theorem Extends.refl (db : DB) : Extends db db where
  tags := ⟨[], by simp, by intro t ht; cases ht⟩
  ids := id
  names := id
  notes := Or.inl rfl
  joins := ⟨[], by simp, List.nodup_nil, by intro p hp; cases hp⟩

/-- The store after the loop extends the store before it. -/
theorem LoopInv.extends {db0 db : DB} {w : Option Nat} {noteTags : List Tag}
    (h : LoopInv db0 db w noteTags) : Extends db0 db where
  tags := h.tags
  ids := h.ids
  names := h.names
  notes := Or.inl h.notes
  joins := ⟨[], by simp [h.joins], List.nodup_nil, by intro p hp; cases hp⟩

/-- Every call of `createNote`, whatever its arguments, the file system and the
state of the store, leaves a store that extends the one it found. -/
theorem createNote_extends (db : DB) (w : Option Nat)
    (ReadFile : String → Except String String) (title summary : String)
    (tags : List String) (bodyFilePath : String) :
    Extends db (createNote db w ReadFile title summary tags bodyFilePath).db := by
  by_cases hpath : bodyFilePath = ""
  · unfold createNote
    rw [if_pos hpath]
    exact Extends.refl db
  · cases hread : ReadFile bodyFilePath with
    | error err =>
      unfold createNote
      rw [if_neg hpath, hread]
      exact Extends.refl db
    | ok body =>
      rw [createNote_ok db w ReadFile title summary tags bodyFilePath body hpath hread]
      have hinv := tagLoop_inv db tags db w [] (LoopInv.start db w)
      rcases hinv.saved with hs | hs
      · rw [Create_refused _ _ _ hs]
        exact hinv.extends
      · rcases Create_cases (tagLoop db w tags []).1 (tagLoop db w tags []).2.1
          ⟨0, some title, some summary, some body, (tagLoop db w tags []).2.2⟩ rfl hs with
          ⟨_, he⟩ | ⟨_, extra, he, hnd, hex⟩
        · rw [he]
          exact hinv.extends
        · rw [he]
          simp only [hinv.notes, hinv.joins] at hex ⊢
          refine ⟨hinv.tags, hinv.ids, hinv.names, Or.inr ⟨_, rfl, rfl⟩, extra, rfl, hnd, ?_⟩
          intro p hp
          obtain ⟨hmap, hnot⟩ := (hex p).mp hp
          obtain ⟨t, ht, hpt⟩ := List.mem_map.mp hmap
          subst hpt
          refine ⟨hnot, rfl, ?_, ?_⟩
          · simp
          · exact List.mem_map_of_mem (·.ID) (hs t ht)

/-- The constraints of the schema carry over to an extension. -/
theorem Extends.wf {db db1 : DB} (h : Extends db db1) (hwf : db.WF) : db1.WF := by
  obtain ⟨new, hnew, _⟩ := h.tags
  obtain ⟨extra, hextra, hnd, hprop⟩ := h.joins
  have hnotes : ∀ i ∈ db.notes.map (·.ID), i ∈ db1.notes.map (·.ID) := by
    intro i hi
    rcases h.notes with hn | ⟨row, hn, _⟩
    · rw [hn]; exact hi
    · rw [hn, List.map_append]; exact List.mem_append_left _ hi
  refine ⟨h.ids hwf.tagIDs, h.names hwf.tagNames, ?_, ?_, ?_, ?_⟩
  · rcases h.notes with hn | ⟨row, hn, hrow⟩
    · rw [hn]; exact hwf.noteIDs
    · rw [hn, List.map_append, List.nodup_append]
      refine ⟨hwf.noteIDs, List.nodup_singleton _, ?_⟩
      intro a ha hb
      simp only [List.map_cons, List.map_nil, List.mem_singleton] at hb
      subst hb
      rw [hrow] at ha
      exact nextID_not_mem _ ha
  · rw [hextra, List.nodup_append]
    exact ⟨hwf.joins, hnd, fun a ha hb => (hprop a hb).1 ha⟩
  · intro p hp
    rw [hextra] at hp
    rcases List.mem_append.mp hp with hp | hp
    · exact hnotes _ (hwf.joinNote p hp)
    · exact (hprop p hp).2.2.1
  · intro p hp
    rw [hextra] at hp
    rcases List.mem_append.mp hp with hp | hp
    · rw [hnew, List.map_append]
      exact List.mem_append_left _ (hwf.joinTag p hp)
    · exact (hprop p hp).2.2.2

/-- A stored note has the same associated tags in an extension, provided the
join rows of the store refer to stored tags. -/
theorem Extends.tagsOf_eq {db db1 : DB} (h : Extends db db1)
    (hRI : ∀ p ∈ db.note_tags, p.2 ∈ db.tags.map (·.ID)) (noteID : Nat)
    (hid : noteID ∈ db.notes.map (·.ID)) : tagsOf db1 noteID = tagsOf db noteID := by
  obtain ⟨new, hnew, hlt⟩ := h.tags
  obtain ⟨extra, hextra, _, hprop⟩ := h.joins
  have hne : noteID ≠ nextID (db.notes.map (·.ID)) := by
    intro he
    rw [he] at hid
    exact nextID_not_mem _ hid
  have hjoin : ∀ x, (noteID, x) ∈ db1.note_tags ↔ (noteID, x) ∈ db.note_tags := by
    intro x
    rw [hextra, List.mem_append]
    constructor
    · rintro (hx | hx)
      · exact hx
      · exact absurd (hprop _ hx).2.1 hne
    · exact Or.inl
  unfold tagsOf
  rw [hnew, List.filter_append]
  have hnil : new.filter (fun t => decide ((noteID, t.ID) ∈ db1.note_tags)) = [] := by
    rw [List.filter_eq_nil_iff]
    intro t ht
    simp only [decide_eq_true_eq]
    rw [hjoin]
    intro hmem
    obtain ⟨u, hu, hue⟩ := List.mem_map.mp (hRI _ hmem)
    have := hlt t ht u hu
    simp only at hue
    omega
  rw [hnil, List.append_nil]
  apply List.filter_congr
  intro t _
  simp only [hjoin]

/-- A note read from the store reads the same from an extension. -/
theorem Extends.readNote_eq {db db1 : DB} (h : Extends db db1)
    (hRI : ∀ p ∈ db.note_tags, p.2 ∈ db.tags.map (·.ID)) (noteID : Nat) (note : Note)
    (hread : readNote db noteID = some note) : readNote db1 noteID = some note := by
  unfold readNote at hread ⊢
  cases hf : db.notes.find? (fun r => r.ID == noteID) with
  | none => rw [hf] at hread; cases hread
  | some r =>
    rw [hf] at hread
    have hr := List.find?_some hf
    have hmem := List.mem_of_find?_eq_some hf
    simp only [beq_iff_eq] at hr
    have hid : noteID ∈ db.notes.map (·.ID) := hr ▸ List.mem_map_of_mem (·.ID) hmem
    have hf1 : db1.notes.find? (fun r => r.ID == noteID) = some r := by
      rcases h.notes with hn | ⟨row, hn, _⟩
      · rw [hn]; exact hf
      · rw [hn, List.find?_append, hf]; rfl
    rw [hf1, h.tagsOf_eq hRI noteID hid]
    exact hread

/-- On a store that accepts every write and with a readable body file,
`createNote` leaves the tags of the loop, one more note (with the next
identifier and the given fields), and the missing join rows of that note. -/
theorem createNote_none (db : DB) (ReadFile : String → Except String String)
    (title summary : String) (tags : List String) (bodyFilePath body : String)
    (hpath : bodyFilePath ≠ "") (hread : ReadFile bodyFilePath = .ok body) :
    ∃ extra, (createNote db none ReadFile title summary tags bodyFilePath).db =
        ⟨(tagLoop db none tags []).1.tags,
          db.notes ++ [⟨nextID (db.notes.map (·.ID)), some title, some summary, some body⟩],
          db.note_tags ++ extra⟩ ∧
      extra.Nodup ∧
      ∀ p, p ∈ extra ↔
        p ∈ (tagLoop db none tags []).2.2.map (fun t => (nextID (db.notes.map (·.ID)), t.ID)) ∧
          p ∉ db.note_tags := by
  rw [createNote_ok db none ReadFile title summary tags bodyFilePath body hpath hread]
  have hinv := tagLoop_inv db tags db none [] (LoopInv.start db none)
  obtain ⟨hw, _, h3, _, _⟩ := tagLoop_none tags db []
  have hs : ∀ t ∈ (tagLoop db none tags []).2.2, t ∈ (tagLoop db none tags []).1.tags := by
    intro t ht
    rcases h3 t ht with h | h
    · cases h
    · exact h.1
  rcases Create_cases (tagLoop db none tags []).1 (tagLoop db none tags []).2.1
      ⟨0, some title, some summary, some body, (tagLoop db none tags []).2.2⟩ rfl hs with
      ⟨hr, _⟩ | ⟨_, extra, he, hnd, hex⟩
  · rw [hw] at hr; cases hr
  · rw [he]
    simp only [hinv.notes, hinv.joins] at hex ⊢
    exact ⟨extra, rfl, hnd, hex⟩

/-- The same on a store that satisfies the constraints of the schema, for tag
names none of which is empty: the join rows of the new note are exactly those of
the stored tags whose name is in the list. -/
theorem createNote_none_wf (db : DB) (ReadFile : String → Except String String)
    (title summary : String) (tags : List String) (bodyFilePath body : String)
    (hwf : db.WF) (hpath : bodyFilePath ≠ "") (hread : ReadFile bodyFilePath = .ok body)
    (hne : ∀ n ∈ tags, n ≠ "") :
    ∃ newTags extra, (createNote db none ReadFile title summary tags bodyFilePath).db =
        ⟨newTags,
          db.notes ++ [⟨nextID (db.notes.map (·.ID)), some title, some summary, some body⟩],
          db.note_tags ++ extra⟩ ∧
      extra.Nodup ∧ (newTags.map (·.ID)).Nodup ∧ (newTags.map (·.Name)).Nodup ∧
      (∀ p ∈ db.note_tags, p.1 ≠ nextID (db.notes.map (·.ID))) ∧
      (∀ p ∈ extra, ∃ t ∈ newTags, p = (nextID (db.notes.map (·.ID)), t.ID)) ∧
      (∀ t ∈ newTags, (nextID (db.notes.map (·.ID)), t.ID) ∈ extra ↔ t.Name ∈ tags) ∧
      (∀ n ∈ tags, ∃ t ∈ newTags, t.Name = n) := by
  obtain ⟨extra, he, hnd, hex⟩ :=
    createNote_none db ReadFile title summary tags bodyFilePath body hpath hread
  have hinv := tagLoop_inv db tags db none [] (LoopInv.start db none)
  obtain ⟨_, h2, h3, _, _⟩ := tagLoop_none tags db []
  have hids := hinv.ids hwf.tagIDs
  have hbase : ∀ p ∈ db.note_tags, p.1 ≠ nextID (db.notes.map (·.ID)) := by
    intro p hp heq
    have := hwf.joinNote p hp
    rw [heq] at this
    exact nextID_not_mem _ this
  refine ⟨_, extra, he, hnd, hids, hinv.names hwf.tagNames, hbase, ?_, ?_, ?_⟩
  · intro p hp
    obtain ⟨hmap, _⟩ := (hex p).mp hp
    obtain ⟨t, ht, hpt⟩ := List.mem_map.mp hmap
    rcases h3 t ht with h | h
    · cases h
    · exact ⟨t, h.1, hpt.symm⟩
  · intro t ht
    constructor
    · intro hp
      obtain ⟨hmap, _⟩ := (hex _).mp hp
      obtain ⟨u, hu, hpu⟩ := List.mem_map.mp hmap
      rcases h3 u hu with h | h
      · cases h
      · have hid : u.ID = t.ID := by
          simp only [Prod.mk.injEq, true_and] at hpu
          exact hpu
        have : u = t := List.inj_on_of_nodup_map hids h.1 ht hid
        rw [← this]
        exact h.2 hne
    · intro hn
      obtain ⟨u, hu, hut, hun⟩ := h2 t.Name hn (hne _ hn)
      have : u = t := List.inj_on_of_nodup_map (hinv.names hwf.tagNames) hut ht hun
      rw [hex]
      refine ⟨?_, fun hc => hbase _ hc rfl⟩
      rw [← this]
      exact List.mem_map_of_mem (fun t => (nextID (db.notes.map (·.ID)), t.ID)) hu
  · intro n hn
    obtain ⟨u, _, hut, hun⟩ := h2 n hn (hne _ hn)
    exact ⟨u, hut, hun⟩

/-! ## Sequences of calls -/

/-- In a table with unique names, a stored tag is the only row with its name. -/
theorem filter_name_eq_singleton (l : List Tag) (hnd : (l.map (·.Name)).Nodup) (t : Tag)
    (ht : t ∈ l) : l.filter (fun u => u.Name = t.Name) = [t] := by
  have hl : l.Nodup := List.Nodup.of_map _ hnd
  have hperm : (l.filter (fun u => u.Name = t.Name)).Perm [t] := by
    rw [List.perm_ext_iff_of_nodup (hl.filter _) (List.nodup_singleton t)]
    intro u
    rw [List.mem_filter, List.mem_singleton]
    constructor
    · rintro ⟨hu, hn⟩
      simp only [decide_eq_true_eq] at hn
      exact List.inj_on_of_nodup_map hnd hu ht hn
    · rintro rfl
      exact ⟨ht, by simp⟩
  exact List.perm_singleton.mp hperm

/-- In a table with unique names, exactly one row carries the name of a stored
tag. -/
theorem filter_name_length_one (l : List Tag) (hnd : (l.map (·.Name)).Nodup) (t : Tag)
    (ht : t ∈ l) : (l.filter (fun u => u.Name = t.Name)).length = 1 := by
  rw [filter_name_eq_singleton l hnd t ht]
  rfl

/-- A sequence of calls removes no tag. -/
theorem runCalls_tags_mono : ∀ (calls : List Call) (db : DB),
    ∀ t ∈ db.tags, t ∈ (runCalls db calls).tags := by
  intro calls
  induction calls with
  | nil => intro db t ht; exact ht
  | cons c cs ih =>
    intro db t ht
    unfold runCalls
    apply ih
    obtain ⟨new, hnew, _⟩ :=
      (createNote_extends db none c.ReadFile c.title c.summary c.tags c.bodyFilePath).tags
    rw [hnew]
    exact List.mem_append_left _ ht

/-- A sequence of calls keeps tag names unique. -/
theorem runCalls_names_nodup : ∀ (calls : List Call) (db : DB),
    (db.tags.map (·.Name)).Nodup → ((runCalls db calls).tags.map (·.Name)).Nodup := by
  intro calls
  induction calls with
  | nil => intro db h; exact h
  | cons c cs ih =>
    intro db h
    unfold runCalls
    apply ih
    exact (createNote_extends db none c.ReadFile c.title c.summary c.tags c.bodyFilePath).names h

/-- After a sequence of calls with readable body files, every non-empty name
passed to one of them names a stored tag. -/
theorem runCalls_name_stored : ∀ (calls : List Call) (db : DB),
    (∀ c ∈ calls, c.bodyFilePath ≠ "" ∧ ∃ body, c.ReadFile c.bodyFilePath = .ok body) →
    ∀ n, n ≠ "" → (∃ c ∈ calls, n ∈ c.tags) →
      ∃ t ∈ (runCalls db calls).tags, t.Name = n := by
  intro calls
  induction calls with
  | nil =>
    intro db _ n _ h
    obtain ⟨c, hc, _⟩ := h
    cases hc
  | cons c cs ih =>
    intro db hread n hn h
    obtain ⟨c1, hc1, hnc⟩ := h
    unfold runCalls
    rcases List.mem_cons.mp hc1 with hc | hc
    · subst hc
      obtain ⟨hpath, body, hbody⟩ := hread c1 (List.mem_cons_self _ _)
      obtain ⟨extra, he, _, _⟩ :=
        createNote_none db c1.ReadFile c1.title c1.summary c1.tags c1.bodyFilePath body
          hpath hbody
      obtain ⟨_, h2, _, _, _⟩ := tagLoop_none c1.tags db []
      obtain ⟨t, _, ht, htn⟩ := h2 n hnc hn
      refine ⟨t, runCalls_tags_mono cs _ t ?_, htn⟩
      rw [he]
      exact ht
    · exact ih _ (fun c2 hc2 => hread c2 (List.mem_cons_of_mem _ hc2)) n hn ⟨c1, hc, hnc⟩

/-! ## The tags of the created note -/

/-- The tags read back for the note just created, on a store that satisfies the
schema and accepts every write, for non-empty tag names: their names are those
of the list, each once. -/
theorem createNote_tagsOf_names (db : DB) (ReadFile : String → Except String String)
    (title summary : String) (tags : List String) (bodyFilePath body : String)
    (hwf : db.WF) (hpath : bodyFilePath ≠ "") (hread : ReadFile bodyFilePath = .ok body)
    (hne : ∀ n ∈ tags, n ≠ "") :
    ((tagsOf (createNote db none ReadFile title summary tags bodyFilePath).db
        (nextID (db.notes.map (·.ID)))).map (·.Name)).Nodup ∧
    ∀ n, n ∈ (tagsOf (createNote db none ReadFile title summary tags bodyFilePath).db
        (nextID (db.notes.map (·.ID)))).map (·.Name) ↔ n ∈ tags := by
  obtain ⟨newTags, extra, he, _, _, hnames, hbase, _, hiff, hall⟩ :=
    createNote_none_wf db ReadFile title summary tags bodyFilePath body hwf hpath hread hne
  rw [he]
  have hmem : ∀ t, t ∈ tagsOf ⟨newTags,
      db.notes ++ [⟨nextID (db.notes.map (·.ID)), some title, some summary, some body⟩],
      db.note_tags ++ extra⟩ (nextID (db.notes.map (·.ID))) ↔ t ∈ newTags ∧ t.Name ∈ tags := by
    intro t
    unfold tagsOf
    simp only [List.mem_filter, decide_eq_true_eq, List.mem_append]
    constructor
    · rintro ⟨ht, hb | hx⟩
      · exact absurd rfl (hbase _ hb)
      · exact ⟨ht, (hiff t ht).mp hx⟩
    · rintro ⟨ht, hn⟩
      exact ⟨ht, Or.inr ((hiff t ht).mpr hn)⟩
  constructor
  · exact hnames.sublist ((List.filter_sublist _).map _)
  · intro n
    rw [List.mem_map]
    constructor
    · rintro ⟨t, ht, rfl⟩
      exact ((hmem t).mp ht).2
    · intro hn
      obtain ⟨t, ht, htn⟩ := hall n hn
      exact ⟨t, (hmem t).mpr ⟨ht, htn ▸ hn⟩, htn⟩

/-- The join rows of the note just created are as many as the tags read back
for it. -/
theorem createNote_join_rows (db : DB) (ReadFile : String → Except String String)
    (title summary : String) (tags : List String) (bodyFilePath body : String)
    (hwf : db.WF) (hpath : bodyFilePath ≠ "") (hread : ReadFile bodyFilePath = .ok body)
    (hne : ∀ n ∈ tags, n ≠ "") :
    ((createNote db none ReadFile title summary tags bodyFilePath).db.note_tags.filter
        (fun p => p.1 = nextID (db.notes.map (·.ID)))).length =
      (tagsOf (createNote db none ReadFile title summary tags bodyFilePath).db
        (nextID (db.notes.map (·.ID)))).length := by
  obtain ⟨newTags, extra, he, hnd, hids, _, hbase, hext, _, _⟩ :=
    createNote_none_wf db ReadFile title summary tags bodyFilePath body hwf hpath hread hne
  rw [he]
  simp only
  have hfb : db.note_tags.filter (fun p => decide (p.1 = nextID (db.notes.map (·.ID)))) = [] := by
    rw [List.filter_eq_nil_iff]
    intro p hp
    simp only [decide_eq_true_eq]
    exact hbase p hp
  have hfe : extra.filter (fun p => decide (p.1 = nextID (db.notes.map (·.ID)))) = extra := by
    rw [List.filter_eq_self]
    intro p hp
    obtain ⟨t, _, hpt⟩ := hext p hp
    simp [hpt]
  rw [List.filter_append, hfb, hfe, List.nil_append]
  have hsub : (tagsOf ⟨newTags,
      db.notes ++ [⟨nextID (db.notes.map (·.ID)), some title, some summary, some body⟩],
      db.note_tags ++ extra⟩ (nextID (db.notes.map (·.ID)))).Sublist newTags :=
    List.filter_sublist _
  have hperm : extra.Perm ((tagsOf ⟨newTags,
      db.notes ++ [⟨nextID (db.notes.map (·.ID)), some title, some summary, some body⟩],
      db.note_tags ++ extra⟩ (nextID (db.notes.map (·.ID)))).map
        (fun t => (nextID (db.notes.map (·.ID)), t.ID))) := by
    rw [List.perm_ext_iff_of_nodup hnd]
    · intro p
      rw [List.mem_map]
      constructor
      · intro hp
        obtain ⟨t, ht, hpt⟩ := hext p hp
        refine ⟨t, ?_, hpt.symm⟩
        unfold tagsOf
        simp only [List.mem_filter, decide_eq_true_eq, List.mem_append]
        exact ⟨ht, Or.inr (hpt ▸ hp)⟩
      · rintro ⟨t, ht, rfl⟩
        unfold tagsOf at ht
        simp only [List.mem_filter, decide_eq_true_eq, List.mem_append] at ht
        rcases ht.2 with hb | hx
        · exact absurd rfl (hbase _ hb)
        · exact hx
    · have h1 : ((tagsOf ⟨newTags,
          db.notes ++ [⟨nextID (db.notes.map (·.ID)), some title, some summary, some body⟩],
          db.note_tags ++ extra⟩ (nextID (db.notes.map (·.ID)))).map (·.ID)).Nodup :=
        hids.sublist (hsub.map _)
      have h2 := h1.map (f := fun i => (nextID (db.notes.map (·.ID)), i))
        (fun a b hab => by simpa using hab)
      rw [List.map_map] at h2
      exact h2
  rw [hperm.length_eq, List.length_map]

/-- A `db.Create` that reports an error has left the store as it was. -/
theorem Create_error (db : DB) (w : Option Nat) (note : Note)
    (h : (Create db w note).2.2.2 = true) : (Create db w note).1 = db := by
  unfold Create at h ⊢
  simp only at h ⊢
  by_cases hc : (refuses w || db.notes.any (fun r => r.ID ==
      if note.ID = 0 then nextID (db.notes.map (·.ID)) else note.ID)) = true
  · rw [if_pos hc]
  · rw [if_neg hc] at h
    cases h

/-- The empty store satisfies the constraints of the schema. -/
theorem DB.empty_wf : DB.empty.WF where
  tagIDs := List.nodup_nil
  tagNames := List.nodup_nil
  noteIDs := List.nodup_nil
  joins := List.nodup_nil
  joinNote := by intro p hp; cases hp
  joinTag := by intro p hp; cases hp

/-! ## The claims -/

/-- Find-or-create away from the empty name: starting from a store in which no
two tags share a name, after any sequence of `createNote` calls with readable
body files no two tags share a name, and for every non-empty tag name passed to
one of the calls the store holds exactly one tag with that name. -/
theorem runCalls_one_tag_per_name (db : DB) (calls : List Call)
    (huniq : (db.tags.map (·.Name)).Nodup)
    (hread : ∀ c ∈ calls, c.bodyFilePath ≠ "" ∧ ∃ body, c.ReadFile c.bodyFilePath = .ok body) :
    ((runCalls db calls).tags.map (·.Name)).Nodup ∧
    ∀ n, n ≠ "" → (∃ c ∈ calls, n ∈ c.tags) →
      ((runCalls db calls).tags.filter (fun t => t.Name = n)).length = 1 := by
  have hnd := runCalls_names_nodup calls db huniq
  refine ⟨hnd, ?_⟩
  intro n hn hex
  obtain ⟨t, ht, htn⟩ := runCalls_name_stored calls db hread n hn hex
  rw [← htn]
  exact filter_name_length_one _ hnd t ht

/-- An instance: two calls on the empty store, the first with tags `x`, `y`,
`x` and the second with tag `x`, leave exactly one tag named `x`. -/
theorem runCalls_one_tag_per_name_witness :
    ((runCalls DB.empty [⟨"n1", "s1", ["x", "y", "x"], "a.md", fsConst "one"⟩,
        ⟨"n2", "s2", ["x"], "b.md", fsConst "two"⟩]).tags.filter
      (fun t => t.Name = "x")).length = 1 :=
  (runCalls_one_tag_per_name DB.empty
    [⟨"n1", "s1", ["x", "y", "x"], "a.md", fsConst "one"⟩,
      ⟨"n2", "s2", ["x"], "b.md", fsConst "two"⟩]
    List.nodup_nil
    (by
      intro c hc
      simp only [List.mem_cons, List.mem_singleton, List.not_mem_nil, or_false] at hc
      rcases hc with rfl | rfl
      · exact ⟨by decide, "one", rfl⟩
      · exact ⟨by decide, "two", rfl⟩)).2 "x" (by decide)
    ⟨_, List.mem_cons_self _ _, by decide⟩

/-- Claim C1 fails on the code at the empty name.  Line 104 looks the tag up
with the condition `Tag{Name: tagName}`; for the empty name (flag `--tags a,`)
the condition has no non-zero field, the lookup returns the stored tag with the
least identifier, and no tag named by the empty string is found or created.  On
the empty store with names `a` and the empty string the only tag afterwards is
`a`; on a store holding tag `z`, a call with the empty name alone ties the new
note to `z`.  In both the empty name was passed and no tag carries it. -/
theorem runCalls_empty_name_no_tag :
    (DB.empty.tags.map (·.Name)).Nodup ∧ "" ∈ ["a", ""] ∧
    (fsConst "text" "body.md" = .ok "text") ∧
    (runCalls DB.empty [⟨"t", "s", ["a", ""], "body.md", fsConst "text"⟩]).tags = [⟨1, "a"⟩] ∧
    ((runCalls DB.empty [⟨"t", "s", ["a", ""], "body.md", fsConst "text"⟩]).tags.filter
      (fun t => t.Name = "")).length = 0 ∧
    runCalls ⟨[⟨1, "z"⟩], [], []⟩ [⟨"t", "s", [""], "body.md", fsConst "text"⟩] =
      ⟨[⟨1, "z"⟩], [⟨1, some "t", some "s", some "text"⟩], [(1, 1)]⟩ := by
  refine ⟨List.nodup_nil, by decide, rfl, by decide, by decide, by decide⟩

/-- Repeated names away from the empty name: on a store that satisfies the
schema and accepts every write, for a readable body file and tag names none of
which is empty, the number of tags associated with the created note, and the
number of its join rows, is the number of distinct names in the list, repeated
or not; and no (note, tag) pair occurs twice in the join table. -/
theorem createNote_one_tag_per_distinct_name (db : DB)
    (ReadFile : String → Except String String) (title summary : String)
    (tags : List String) (bodyFilePath body : String)
    (hwf : db.WF) (hpath : bodyFilePath ≠ "") (hread : ReadFile bodyFilePath = .ok body)
    (hne : ∀ n ∈ tags, n ≠ "") :
    (tagsOf (createNote db none ReadFile title summary tags bodyFilePath).db
        (nextID (db.notes.map (·.ID)))).length = tags.dedup.length ∧
    ((createNote db none ReadFile title summary tags bodyFilePath).db.note_tags.filter
        (fun p => p.1 = nextID (db.notes.map (·.ID)))).length = tags.dedup.length ∧
    (createNote db none ReadFile title summary tags bodyFilePath).db.note_tags.Nodup := by
  obtain ⟨hnd, hmem⟩ :=
    createNote_tagsOf_names db ReadFile title summary tags bodyFilePath body hwf hpath hread hne
  have hlen : (tagsOf (createNote db none ReadFile title summary tags bodyFilePath).db
      (nextID (db.notes.map (·.ID)))).length = tags.dedup.length := by
    have hperm : ((tagsOf (createNote db none ReadFile title summary tags bodyFilePath).db
        (nextID (db.notes.map (·.ID)))).map (·.Name)).Perm tags.dedup := by
      rw [List.perm_ext_iff_of_nodup hnd (List.nodup_dedup tags)]
      intro n
      rw [hmem n, List.mem_dedup]
    rw [← hperm.length_eq, List.length_map]
  refine ⟨hlen, ?_, ?_⟩
  · rw [createNote_join_rows db ReadFile title summary tags bodyFilePath body hwf hpath hread hne]
    exact hlen
  · exact ((createNote_extends db none ReadFile title summary tags bodyFilePath).wf hwf).joins

/-- The instance of the specification: with tag names `x`, `x`, `y` on the
empty store the created note has two associated tags, not three. -/
theorem createNote_one_tag_per_distinct_name_witness :
    (tagsOf (createNote DB.empty none (fsConst "text") "t" "s" ["x", "x", "y"] "b.md").db
        (nextID (DB.empty.notes.map (·.ID)))).length = ["x", "x", "y"].dedup.length ∧
    ["x", "x", "y"].dedup.length = 2 :=
  ⟨(createNote_one_tag_per_distinct_name DB.empty (fsConst "text") "t" "s" ["x", "x", "y"]
      "b.md" "text"
      DB.empty_wf (by decide) rfl (by decide)).1, by decide⟩

/-- Claim C2 fails on the code when a repeated list holds the empty name.  With
tag names `x`, `x` and the empty string (flag `--tags x,x,`) on the empty store
the list has two distinct names; the lookup of line 104 for the empty name
returns tag `x`, and the created note has one associated tag and one join
row. -/
theorem createNote_empty_name_tag_count :
    ["x", "x", ""].dedup.length = 2 ∧
    (createNote DB.empty none (fsConst "text") "t" "s" ["x", "x", ""] "b.md").db =
      ⟨[⟨1, "x"⟩], [⟨1, some "t", some "s", some "text"⟩], [(1, 1)]⟩ ∧
    tagsOf (createNote DB.empty none (fsConst "text") "t" "s" ["x", "x", ""] "b.md").db 1
      = [⟨1, "x"⟩] ∧
    (tagsOf (createNote DB.empty none (fsConst "text") "t" "s" ["x", "x", ""] "b.md").db
      1).length = 1 := by
  refine ⟨by decide, by decide, by decide, by decide⟩

/-- Round trip away from the empty name: on a store that satisfies the schema
and accepts every write, for every title, summary, readable body text and list
of non-empty tag names, reading the created note back gives a note with that
title, summary and body whose tags carry exactly the names of the list, each
once. -/
theorem createNote_round_trip (db : DB) (ReadFile : String → Except String String)
    (title summary : String) (tags : List String) (bodyFilePath body : String)
    (hwf : db.WF) (hpath : bodyFilePath ≠ "") (hread : ReadFile bodyFilePath = .ok body)
    (hne : ∀ n ∈ tags, n ≠ "") :
    ∃ note, readNote (createNote db none ReadFile title summary tags bodyFilePath).db
        (nextID (db.notes.map (·.ID))) = some note ∧
      note.Title = some title ∧ note.Summary = some summary ∧ note.Body = some body ∧
      (note.Tags.map (·.Name)).Nodup ∧ ∀ n, n ∈ note.Tags.map (·.Name) ↔ n ∈ tags := by
  obtain ⟨hnd, hmem⟩ :=
    createNote_tagsOf_names db ReadFile title summary tags bodyFilePath body hwf hpath hread hne
  obtain ⟨extra, he, _, _⟩ :=
    createNote_none db ReadFile title summary tags bodyFilePath body hpath hread
  have hnotes : (createNote db none ReadFile title summary tags bodyFilePath).db.notes =
      db.notes ++ [⟨nextID (db.notes.map (·.ID)), some title, some summary, some body⟩] := by
    rw [he]
  have hnone : db.notes.find? (fun r => r.ID == nextID (db.notes.map (·.ID))) = none := by
    rw [List.find?_eq_none]
    intro r hr hid
    simp only [beq_iff_eq] at hid
    exact nextID_not_mem (db.notes.map (·.ID)) (hid ▸ List.mem_map_of_mem (·.ID) hr)
  refine ⟨⟨nextID (db.notes.map (·.ID)), some title, some summary, some body,
    tagsOf (createNote db none ReadFile title summary tags bodyFilePath).db
      (nextID (db.notes.map (·.ID)))⟩, ?_, rfl, rfl, rfl, hnd, hmem⟩
  unfold readNote
  rw [hnotes, List.find?_append, hnone]
  simp

/-- The instance of the specification: title `Hello`, summary `A summary`,
tags `go` and `notes`, body `Body text`, on the empty store. -/
theorem createNote_round_trip_witness :
    ∃ note, readNote (createNote DB.empty none (fsConst "Body text") "Hello" "A summary"
        ["go", "notes"] "body.md").db 1 = some note ∧
      note.Title = some "Hello" ∧ note.Summary = some "A summary" ∧
      note.Body = some "Body text" ∧
      (note.Tags.map (·.Name)).Nodup ∧ ∀ n, n ∈ note.Tags.map (·.Name) ↔ n ∈ ["go", "notes"] :=
  createNote_round_trip DB.empty (fsConst "Body text") "Hello" "A summary" ["go", "notes"]
    "body.md" "Body text" DB.empty_wf (by decide) rfl (by decide)

/-- Claim C3 fails on the code when a name is empty.  With tag names `a` and
the empty string (flag `--tags a,`) the lookup of line 104 for the empty name
returns the stored tag with the least identifier.  On the empty store the note
reads back with the single tag `a`; on a store holding tag `z` it reads back
with the tags `z` and `a`.  In neither are the names read back the names
given. -/
theorem createNote_empty_name_round_trip :
    "" ∈ ["a", ""] ∧
    readNote (createNote DB.empty none (fsConst "Body text") "Hello" "A summary"
        ["a", ""] "body.md").db 1 =
      some ⟨1, some "Hello", some "A summary", some "Body text", [⟨1, "a"⟩]⟩ ∧
    "" ∉ ([⟨1, "a"⟩] : List Tag).map (·.Name) ∧
    readNote (createNote ⟨[⟨1, "z"⟩], [], []⟩ none (fsConst "Body text") "Hello" "A summary"
        ["a", ""] "body.md").db 1 =
      some ⟨1, some "Hello", some "A summary", some "Body text", [⟨1, "z"⟩, ⟨2, "a"⟩]⟩ ∧
    "z" ∉ ["a", ""] := by
  refine ⟨by decide, by decide, by decide, by decide, by decide⟩

/-- Claim C4, amended: when the insertion of the note fails after the loop has
run, no note and no join row is added and every tag stored before is still
stored; the store is the one the loop left, so the tags the loop created
remain. -/
theorem createNote_failed_insert (db : DB) (w : Option Nat)
    (ReadFile : String → Except String String) (title summary : String)
    (tags : List String) (bodyFilePath body : String)
    (hpath : bodyFilePath ≠ "") (hread : ReadFile bodyFilePath = .ok body)
    (hfail : (Create (tagLoop db w tags []).1 (tagLoop db w tags []).2.1
      ⟨0, some title, some summary, some body, (tagLoop db w tags []).2.2⟩).2.2.2 = true) :
    (createNote db w ReadFile title summary tags bodyFilePath).db = (tagLoop db w tags []).1 ∧
    (createNote db w ReadFile title summary tags bodyFilePath).db.notes = db.notes ∧
    (createNote db w ReadFile title summary tags bodyFilePath).db.note_tags = db.note_tags ∧
    ∃ new, (createNote db w ReadFile title summary tags bodyFilePath).db.tags =
      db.tags ++ new := by
  have hinv := tagLoop_inv db tags db w [] (LoopInv.start db w)
  rw [createNote_ok db w ReadFile title summary tags bodyFilePath body hpath hread]
  simp only
  rw [Create_error _ _ _ hfail]
  obtain ⟨new, hnew, _⟩ := hinv.tags
  exact ⟨rfl, hinv.notes, hinv.joins, new, hnew⟩

/-- Claim C4, an instance: on the empty store with one write left, tag name
`x`, the insertion of the note is refused and the store is the one the loop
left. -/
theorem createNote_failed_insert_witness :
    (createNote DB.empty (some 1) (fsConst "text") "t" "s" ["x"] "b.md").db =
      (tagLoop DB.empty (some 1) ["x"] []).1 :=
  (createNote_failed_insert DB.empty (some 1) (fsConst "text") "t" "s" ["x"] "b.md" "text"
    (by decide) rfl (by decide)).1

/-- Claim C4 as stated fails: on the empty store, with tag name `x` and the
store refusing writes after the first, the loop stores tag `x`, the insertion of
the note reports an error, and the store afterwards still holds tag `x`: it is
not the store before the call. -/
theorem createNote_not_atomic_counterexample :
    (tagLoop DB.empty (some 1) ["x"] []).1 = ⟨[⟨1, "x"⟩], [], []⟩ ∧
    (Create (tagLoop DB.empty (some 1) ["x"] []).1 (tagLoop DB.empty (some 1) ["x"] []).2.1
      ⟨0, some "t", some "s", some "text", (tagLoop DB.empty (some 1) ["x"] []).2.2⟩).2.2.2
      = true ∧
    (createNote DB.empty (some 1) (fsConst "text") "t" "s" ["x"] "b.md").db =
      ⟨[⟨1, "x"⟩], [], []⟩ ∧
    (createNote DB.empty (some 1) (fsConst "text") "t" "s" ["x"] "b.md").db ≠ DB.empty := by
  refine ⟨by decide, by decide, by decide, by decide⟩

/-- Claim C5: when the body file cannot be read, `createNote` prints an error,
exits with status 1 and leaves the store as it was, whatever tag names are
given; in particular the number of notes is unchanged. -/
theorem createNote_unreadable_body (db : DB) (w : Option Nat)
    (ReadFile : String → Except String String) (title summary : String)
    (tags : List String) (bodyFilePath err : String)
    (hread : ReadFile bodyFilePath = .error err) :
    (createNote db w ReadFile title summary tags bodyFilePath).exit = some 1 ∧
    (createNote db w ReadFile title summary tags bodyFilePath).out ≠ [] ∧
    (createNote db w ReadFile title summary tags bodyFilePath).db = db ∧
    (createNote db w ReadFile title summary tags bodyFilePath).db.notes.length =
      db.notes.length := by
  unfold createNote
  by_cases hpath : bodyFilePath = ""
  · rw [if_pos hpath]
    exact ⟨rfl, by simp, rfl, rfl⟩
  · rw [if_neg hpath, hread]
    exact ⟨rfl, by simp, rfl, rfl⟩

/-- Claim C5, an instance: a store with one tag and one note, tag names given,
no file readable. -/
theorem createNote_unreadable_body_witness :
    (createNote ⟨[⟨1, "x"⟩], [⟨1, some "t", some "s", some "b"⟩], [(1, 1)]⟩ none fsNone
      "t2" "s2" ["y", "z"] "missing.md").db =
      ⟨[⟨1, "x"⟩], [⟨1, some "t", some "s", some "b"⟩], [(1, 1)]⟩ :=
  (createNote_unreadable_body ⟨[⟨1, "x"⟩], [⟨1, some "t", some "s", some "b"⟩], [(1, 1)]⟩
    none fsNone "t2" "s2" ["y", "z"] "missing.md" "no such file or directory" rfl).2.2.1

/-- Claim C6 fails on the code: on a store that refuses every write, with a
readable body file and tag name `x`, both `db.FirstOrCreate` and `db.Create`
report an error, and `createNote` still prints the confirmation and returns
without exiting; no note is stored. -/
theorem createNote_refused_write_reports_success :
    (FirstOrCreate DB.empty (some 0) ⟨0, "x"⟩ ⟨0, "x"⟩).2.2.2 = true ∧
    (Create DB.empty (some 0) ⟨0, some "t", some "s", some "text", [⟨0, "x"⟩]⟩).2.2.2 = true ∧
    createNote DB.empty (some 0) (fsConst "text") "t" "s" ["x"] "b.md" =
      ⟨none, ["Note created successfully!"], DB.empty⟩ := by
  refine ⟨by decide, by decide, by decide⟩

/-- Claim C7, amended: on a store that accepts every write and with a readable
body file, `createNote` returns without exiting, prints only the confirmation,
and adds exactly one note, which carries the given fields and an identifier
that no note of the store had before.  The identifier is not handed back. -/
theorem createNote_new_note_fresh (db : DB) (ReadFile : String → Except String String)
    (title summary : String) (tags : List String) (bodyFilePath body : String)
    (hpath : bodyFilePath ≠ "") (hread : ReadFile bodyFilePath = .ok body) :
    (createNote db none ReadFile title summary tags bodyFilePath).exit = none ∧
    (createNote db none ReadFile title summary tags bodyFilePath).out =
      ["Note created successfully!"] ∧
    (createNote db none ReadFile title summary tags bodyFilePath).db.notes =
      db.notes ++ [⟨nextID (db.notes.map (·.ID)), some title, some summary, some body⟩] ∧
    nextID (db.notes.map (·.ID)) ∉ db.notes.map (·.ID) := by
  obtain ⟨extra, he, _, _⟩ :=
    createNote_none db ReadFile title summary tags bodyFilePath body hpath hread
  refine ⟨?_, ?_, ?_, nextID_not_mem _⟩
  · rw [createNote_ok db none ReadFile title summary tags bodyFilePath body hpath hread]
  · rw [createNote_ok db none ReadFile title summary tags bodyFilePath body hpath hread]
  · rw [he]

/-- Claim C7, an instance: a second note on a store holding note 1 gets
identifier 2. -/
theorem createNote_new_note_fresh_witness :
    (createNote ⟨[], [⟨1, some "t", some "s", some "text"⟩], []⟩ none (fsConst "text")
      "t2" "s2" [] "b.md").db.notes =
      [⟨1, some "t", some "s", some "text"⟩, ⟨2, some "t2", some "s2", some "text"⟩] :=
  (createNote_new_note_fresh ⟨[], [⟨1, some "t", some "s", some "text"⟩], []⟩
    (fsConst "text") "t2" "s2" [] "b.md" "text" (by decide) rfl).2.2.1

/-- Claim C7 as stated fails: what `createNote` hands back to its caller (exit
status and printed lines) is the same for a call on the empty store, where the
new note gets identifier 1, and for the same call on a store that holds note 1,
where it gets identifier 2; so no identifier of the new note can be read from
it. -/
theorem createNote_hands_back_no_id_counterexample :
    ¬ ∃ idOf : Option Nat × List String → Nat,
      ∀ db ∈ [DB.empty, ⟨[], [⟨1, some "t", some "s", some "text"⟩], []⟩],
        idOf ((createNote db none (fsConst "text") "t" "s" [] "b.md").exit,
            (createNote db none (fsConst "text") "t" "s" [] "b.md").out)
          ∉ db.notes.map (·.ID) ∧
        idOf ((createNote db none (fsConst "text") "t" "s" [] "b.md").exit,
            (createNote db none (fsConst "text") "t" "s" [] "b.md").out)
          ∈ (createNote db none (fsConst "text") "t" "s" [] "b.md").db.notes.map (·.ID) := by
  rintro ⟨idOf, h⟩
  have e1 : createNote DB.empty none (fsConst "text") "t" "s" [] "b.md" =
      ⟨none, ["Note created successfully!"],
        ⟨[], [⟨1, some "t", some "s", some "text"⟩], []⟩⟩ := by decide
  have e2 : createNote ⟨[], [⟨1, some "t", some "s", some "text"⟩], []⟩ none
      (fsConst "text") "t" "s" [] "b.md" =
      ⟨none, ["Note created successfully!"],
        ⟨[], [⟨1, some "t", some "s", some "text"⟩, ⟨2, some "t", some "s", some "text"⟩],
          []⟩⟩ := by decide
  have h1 := (h DB.empty (List.mem_cons_self _ _)).2
  have h2 := (h ⟨[], [⟨1, some "t", some "s", some "text"⟩], []⟩
    (List.mem_cons_of_mem _ (List.mem_cons_self _ _))).1
  rw [e1] at h1
  rw [e2] at h2
  simp only [List.map_cons, List.map_nil, List.mem_singleton] at h1 h2
  exact h2 h1

/-- Claim C8: every call of `createNote` only appends rows to the three tables;
and on a store that satisfies the schema, the store afterwards satisfies it
too, every tag stored before is afterwards the only row with its name, and
every note that could be read before reads the same afterwards: same
identifier, title, summary, body and associated tags. -/
theorem createNote_only_adds (db : DB) (w : Option Nat)
    (ReadFile : String → Except String String) (title summary : String)
    (tags : List String) (bodyFilePath : String) :
    (∃ new, (createNote db w ReadFile title summary tags bodyFilePath).db.tags =
      db.tags ++ new) ∧
    (∃ new, (createNote db w ReadFile title summary tags bodyFilePath).db.notes =
      db.notes ++ new) ∧
    (∃ new, (createNote db w ReadFile title summary tags bodyFilePath).db.note_tags =
      db.note_tags ++ new) ∧
    (db.WF →
      (createNote db w ReadFile title summary tags bodyFilePath).db.WF ∧
      (∀ t ∈ db.tags,
        (createNote db w ReadFile title summary tags bodyFilePath).db.tags.filter
          (fun u => u.Name = t.Name) = [t]) ∧
      ∀ noteID note, readNote db noteID = some note →
        readNote (createNote db w ReadFile title summary tags bodyFilePath).db noteID =
          some note) := by
  have hext := createNote_extends db w ReadFile title summary tags bodyFilePath
  refine ⟨?_, ?_, ?_, ?_⟩
  · obtain ⟨new, hnew, _⟩ := hext.tags
    exact ⟨new, hnew⟩
  · rcases hext.notes with hn | ⟨row, hn, _⟩
    · exact ⟨[], by rw [hn, List.append_nil]⟩
    · exact ⟨[row], hn⟩
  · obtain ⟨extra, hextra, _⟩ := hext.joins
    exact ⟨extra, hextra⟩
  · intro hwf
    refine ⟨hext.wf hwf, ?_, fun noteID note hr => hext.readNote_eq hwf.joinTag noteID note hr⟩
    intro t ht
    obtain ⟨new, hnew, _⟩ := hext.tags
    exact filter_name_eq_singleton _ (hext.wf hwf).tagNames t
      (hnew ▸ List.mem_append_left _ ht)

/-- Claim C8, an instance: a store holding tag `x` and note 1 tagged `x`; after
a call with tag names `x` and `z`, note 1 reads as before. -/
theorem createNote_only_adds_witness :
    readNote (createNote ⟨[⟨1, "x"⟩], [⟨1, some "t", some "s", some "b"⟩], [(1, 1)]⟩ none
      (fsConst "two") "t2" "s2" ["x", "z"] "b.md").db 1 =
      some ⟨1, some "t", some "s", some "b", [⟨1, "x"⟩]⟩ :=
  ((createNote_only_adds ⟨[⟨1, "x"⟩], [⟨1, some "t", some "s", some "b"⟩], [(1, 1)]⟩ none
    (fsConst "two") "t2" "s2" ["x", "z"] "b.md").2.2.2
    ⟨by decide, by decide, by decide, by decide, by decide, by decide⟩).2.2 1 _ (by decide)

/-- Claim C9 fails on the code: when `db.DB()` succeeds and `sqlDB.Close()`
returns an error, whatever it is, `dbClose` prints nothing and returns without
exiting. -/
theorem dbClose_discards_close_error (err : String) :
    dbClose none (some err) = ⟨none, []⟩ := rfl

/-! ## Schema initialisation -/

/-- A successful migration of a table makes it present. -/
theorem present_createTable (t : Table) (f : SqliteFile) : present t (createTable t f) = true := by
  cases t <;> rfl

/-- Migrating a table that is present changes nothing. -/
theorem createTable_of_present (t : Table) (f : SqliteFile) (h : present t f = true) :
    createTable t f = f := by
  cases f with
  | mk a b c =>
    cases t
    · cases a with
      | none => cases h
      | some _ => rfl
    · cases b with
      | none => cases h
      | some _ => rfl
    · cases c with
      | none => cases h
      | some _ => rfl

/-- A successful migration of a table keeps the tables that are present. -/
theorem present_createTable_of_present (t u : Table) (f : SqliteFile)
    (h : present u f = true) : present u (createTable t f) = true := by
  cases f with
  | mk a b c => cases t <;> cases u <;> first | rfl | exact h

/-- A migration, failed or not, keeps the tables that are present. -/
theorem present_migrateFrom (migErr : Table → SqliteFile → Option String) (u : Table) :
    ∀ (ts : List Table) (f : SqliteFile), present u f = true →
      present u (migrateFrom migErr ts f).1 = true := by
  intro ts
  induction ts with
  | nil => intro f h; exact h
  | cons t ts ih =>
    intro f h
    unfold migrateFrom
    cases hm : migErr t f with
    | some err => exact h
    | none => exact ih _ (present_createTable_of_present t u f h)

/-- A migration, failed or not, keeps the rows of the tables that are
present. -/
theorem rows_migrateFrom (migErr : Table → SqliteFile → Option String) :
    ∀ (ts : List Table) (f : SqliteFile),
      (∀ rows, f.tags = some rows → (migrateFrom migErr ts f).1.tags = some rows) ∧
      (∀ rows, f.notes = some rows → (migrateFrom migErr ts f).1.notes = some rows) ∧
      (∀ rows, f.note_tags = some rows →
        (migrateFrom migErr ts f).1.note_tags = some rows) := by
  intro ts
  induction ts with
  | nil => intro f; exact ⟨fun _ h => h, fun _ h => h, fun _ h => h⟩
  | cons t ts ih =>
    intro f
    unfold migrateFrom
    cases hm : migErr t f with
    | some err => exact ⟨fun _ h => h, fun _ h => h, fun _ h => h⟩
    | none =>
      obtain ⟨i1, i2, i3⟩ := ih (createTable t f)
      refine ⟨fun rows h => i1 rows ?_, fun rows h => i2 rows ?_, fun rows h => i3 rows ?_⟩
      · cases t <;> simp [createTable, h]
      · cases t <;> simp [createTable, h]
      · cases t <;> simp [createTable, h]

/-- Migrating again the file a migration left, with the same store, leaves the
same file, whether the first migration failed or not. -/
theorem migrateFrom_idem (migErr : Table → SqliteFile → Option String) :
    ∀ (ts : List Table) (f : SqliteFile),
      (migrateFrom migErr ts (migrateFrom migErr ts f).1).1 = (migrateFrom migErr ts f).1 := by
  intro ts
  induction ts with
  | nil => intro f; rfl
  | cons t ts ih =>
    intro f
    cases hm : migErr t f with
    | some err =>
      have h1 : migrateFrom migErr (t :: ts) f = (f, some err) := by
        unfold migrateFrom; rw [hm]
      rw [h1]
      exact congrArg Prod.fst h1
    | none =>
      have h1 : migrateFrom migErr (t :: ts) f = migrateFrom migErr ts (createTable t f) := by
        conv_lhs => unfold migrateFrom
        rw [hm]
      rw [h1]
      have hp : present t (migrateFrom migErr ts (createTable t f)).1 = true :=
        present_migrateFrom migErr t ts _ (present_createTable t f)
      conv_lhs => unfold migrateFrom
      cases hm2 : migErr t (migrateFrom migErr ts (createTable t f)).1 with
      | some err => rfl
      | none =>
        simp only
        rw [createTable_of_present t _ hp]
        exact ih (createTable t f)

/-- A migration that raised no error leaves the three tables, those that were
absent being empty. -/
theorem AutoMigrate_no_error (migErr : Table → SqliteFile → Option String) (f : SqliteFile)
    (h : (AutoMigrate migErr f).2 = none) :
    (AutoMigrate migErr f).1 =
      ⟨some (f.tags.getD []), some (f.notes.getD []), some (f.note_tags.getD [])⟩ := by
  simp only [AutoMigrate, migrateFrom] at h ⊢
  cases e1 : migErr .tags f with
  | some err => simp [e1] at h
  | none =>
    simp only [e1] at h ⊢
    cases e2 : migErr .notes (createTable .tags f) with
    | some err => simp [e2] at h
    | none =>
      simp only [e2] at h ⊢
      cases e3 : migErr .note_tags (createTable .notes (createTable .tags f)) with
      | some err => simp [e3] at h
      | none =>
        simp only [e3]
        rfl

/-- Claim C10: running `initDB` a second time on the same path gives the same
exit status, the same store and the same disk as running it once, for every
path, every content of the file and every way the store may fail to migrate;
when the path can be opened neither run exits, and every table that was present
is there with its rows unchanged; and when the migration raised no error the
three tables exist, those that were absent being empty. -/
theorem initDB_idempotent (migErr : Table → SqliteFile → Option String)
    (disk : String → Except String SqliteFile) (dbFile : String) :
    (initDB migErr (initDB migErr disk dbFile).disk dbFile).exit =
      (initDB migErr disk dbFile).exit ∧
    (initDB migErr (initDB migErr disk dbFile).disk dbFile).db =
      (initDB migErr disk dbFile).db ∧
    (initDB migErr (initDB migErr disk dbFile).disk dbFile).disk =
      (initDB migErr disk dbFile).disk ∧
    ∀ f, disk dbFile = .ok f →
      (initDB migErr disk dbFile).exit = none ∧
      (initDB migErr (initDB migErr disk dbFile).disk dbFile).exit = none ∧
      ∃ g, (initDB migErr disk dbFile).db = some g ∧
        (initDB migErr (initDB migErr disk dbFile).disk dbFile).db = some g ∧
        (∀ rows, f.tags = some rows → g.tags = some rows) ∧
        (∀ rows, f.notes = some rows → g.notes = some rows) ∧
        (∀ rows, f.note_tags = some rows → g.note_tags = some rows) ∧
        ((initDB migErr disk dbFile).log = [] →
          g = ⟨some (f.tags.getD []), some (f.notes.getD []), some (f.note_tags.getD [])⟩) := by
  cases hd : disk dbFile with
  | error err =>
    have h1 : initDB migErr disk dbFile =
        ⟨some 1, ["Failed to connect to the database: " ++ err], [], none, disk⟩ := by
      unfold initDB; rw [hd]
    rw [h1]
    simp only
    rw [h1]
    exact ⟨rfl, rfl, rfl, fun f hf => by cases hf⟩
  | ok f =>
    have h1 : initDB migErr disk dbFile =
        ⟨none, [], (AutoMigrate migErr f).2.toList, some (AutoMigrate migErr f).1,
          fun p => if p = dbFile then .ok (AutoMigrate migErr f).1 else disk p⟩ := by
      unfold initDB; rw [hd]
    have hidem : (AutoMigrate migErr (AutoMigrate migErr f).1).1 = (AutoMigrate migErr f).1 :=
      migrateFrom_idem migErr _ f
    have h2 : initDB migErr
        (fun p => if p = dbFile then .ok (AutoMigrate migErr f).1 else disk p) dbFile =
        ⟨none, [], (AutoMigrate migErr (AutoMigrate migErr f).1).2.toList,
          some (AutoMigrate migErr f).1,
          fun p => if p = dbFile then .ok (AutoMigrate migErr f).1 else disk p⟩ := by
      unfold initDB
      simp only [if_true]
      rw [hidem]
      congr 1
      funext p
      by_cases hp : p = dbFile
      · simp [hp]
      · simp [hp]
    rw [h1]
    simp only
    rw [h2]
    refine ⟨rfl, rfl, rfl, fun g hg => ?_⟩
    cases hg
    obtain ⟨r1, r2, r3⟩ := rows_migrateFrom migErr [.tags, .notes, .note_tags] f
    refine ⟨trivial, rfl, (AutoMigrate migErr f).1, rfl, rfl, r1, r2, r3, ?_⟩
    intro hlog
    apply AutoMigrate_no_error
    cases hm : (AutoMigrate migErr f).2 with
    | none => rfl
    | some err => rw [hm] at hlog; cases hlog

/-- Claim C10, two instances.  A file that holds only the table `tags`, on a
store that cannot be written: both runs return without exiting and leave the
file as it was, `notes` and `note_tags` absent.  The same file on a store that
raises no error: both runs leave the three tables, `tags` with its row. -/
theorem initDB_idempotent_witness :
    (initDB migReadOnly (initDB migReadOnly (fun _ => .ok ⟨some [⟨1, "x"⟩], none, none⟩)
      "z2.db").disk "z2.db").db = some ⟨some [⟨1, "x"⟩], none, none⟩ ∧
    (initDB migReadOnly (initDB migReadOnly (fun _ => .ok ⟨some [⟨1, "x"⟩], none, none⟩)
      "z2.db").disk "z2.db").exit = none ∧
    (initDB migOk (initDB migOk (fun _ => .ok ⟨some [⟨1, "x"⟩], none, none⟩)
      "z2.db").disk "z2.db").db = some (DB.file ⟨[⟨1, "x"⟩], [], []⟩) := by
  obtain ⟨_, hdb, _, h⟩ :=
    initDB_idempotent migReadOnly (fun _ => .ok ⟨some [⟨1, "x"⟩], none, none⟩) "z2.db"
  obtain ⟨_, hexit, _⟩ := h ⟨some [⟨1, "x"⟩], none, none⟩ rfl
  obtain ⟨_, hdb2, _, _⟩ :=
    initDB_idempotent migOk (fun _ => .ok ⟨some [⟨1, "x"⟩], none, none⟩) "z2.db"
  refine ⟨?_, hexit, ?_⟩
  · rw [hdb]; decide
  · rw [hdb2]; decide

end Z2
